import Mathlib

/-
Verification of the good-indexer core pipeline: a shallow embedding of the
scanner, publisher, dispatcher, domain executor, circuit breaker and the
executor's local hash, translated from the TypeScript sources, together with
theorems settling the specification claims C1..C10.

Machine integers are modelled as Nat with explicit `% 2^32` where JavaScript
32-bit semantics matter.  Strings are modelled by Lean `String`; character
codes use `Char.toNat` (identical to JavaScript `charCodeAt` on the basic
multilingual plane, which covers every input considered here).
-/

namespace GoodIndexer

/-! ## JavaScript 32-bit arithmetic helpers -/

/-- 32-bit pattern of a JS `Math.imul` result (unsigned view). -/
def imul (a b : Nat) : Nat := (a * b) % 2 ^ 32

/-- Fuel-driven digit accumulator (fuel keeps the recursion structural). -/
def natHexAux : Nat → Nat → List Char → List Char
  | 0, _, acc => acc
  | fuel + 1, n, acc =>
    if n < 16 then Nat.digitChar (n % 16) :: acc
    else natHexAux fuel (n / 16) (Nat.digitChar (n % 16) :: acc)

/-- Hex digits of a natural number, most significant first, lowercase
(the behaviour of JS `Number.prototype.toString(16)` on non-negative ints). -/
def natHexList (n : Nat) : List Char := natHexAux (n + 1) n []

/-- JS `v.toString(16)` where `v` is the signed reading of the 32-bit
pattern `p`: negative values render as a minus sign followed by the hex
digits of the absolute value. -/
def int32HexList (p : Nat) : List Char :=
  if p < 2 ^ 31 then natHexList p else '-' :: natHexList (2 ^ 32 - p)

/-- JS `String.prototype.padStart(len, c)` on a char list. -/
def padStartList (l : List Char) (len : Nat) (c : Char) : List Char :=
  List.replicate (len - l.length) c ++ l

/-- JS `String.prototype.slice(-k)` on a char list: the last `k` characters
(the whole list when it is shorter than `k`). -/
def takeLast (l : List Char) (k : Nat) : List Char :=
  l.drop (l.length - k)

/-! ## toHex32 (packages/executor-evm: deterministic local hash)

Translated from `toHex32` in the executor source: two FNV-style 32-bit
accumulators over the char codes of the input, rendered as four 8-char
groups.  The fourth group renders the *signed* `Math.imul` result, so it can
contain a minus sign. -/

/-- One step of the accumulator loop: `h1 ^= c; h1 = imul(h1, 0x01000193);
h2 ^= c; h2 = imul(h2, 0x85ebca6b)`. -/
def fnvStep (h : Nat × Nat) (c : Char) : Nat × Nat :=
  (imul (h.1 ^^^ c.toNat) 0x01000193, imul (h.2 ^^^ c.toNat) 0x85ebca6b)

/-- Final accumulator pair for an input string. -/
def fnvAcc (input : String) : Nat × Nat :=
  input.data.foldl fnvStep (0x811c9dc5, 0x811c9dc5 ^^^ 0xffffffff)

/-- The executor's 32-character digest of a command key. -/
def toHex32 (input : String) : String :=
  let hs := fnvAcc input
  let h1 := hs.1
  let h2 := hs.2
  let part1 := padStartList (natHexList h1) 8 '0'
  let part2 := padStartList (natHexList h2) 8 '0'
  let part3 := padStartList (natHexList (h1 ^^^ h2)) 8 '0'
  let part4 := padStartList (takeLast (int32HexList (imul h1 (h2 / 2))) 8) 8 '0'
  String.mk (part1 ++ part2 ++ part3 ++ part4)

/-- Lowercase hex digit test, for checking the digest's alphabet. -/
def isLowerHexDigit (c : Char) : Bool :=
  ('0' ≤ c && c ≤ '9') || ('a' ≤ c && c ≤ 'f')

/-! ## Circuit breaker (adapters-evm)

Translated from `class CircuitBreaker`: counters plus an `openUntil`
timestamp in milliseconds; `execute` rejects while `now < openUntil`
(the `circuit_open` error) without invoking the wrapped function. -/

/-- Result of the wrapped function when it is actually invoked. -/
inductive CallResult
  | success
  | failure
deriving DecidableEq, Repr

/-- Observable outcome of `CircuitBreaker.execute`: either the distinguished
`circuit_open` rejection (the wrapped function is not invoked) or the wrapped
function ran with the given result. -/
inductive CallOutcome
  | rejected
  | ran (r : CallResult)
deriving DecidableEq, Repr

structure CircuitBreaker where
  failureThreshold : Nat := 5
  openSeconds : Nat := 5
  failureCount : Nat := 0
  successCount : Nat := 0
  openUntil : Nat := 0
deriving DecidableEq, Repr

/-- Fresh breaker with the constructor defaults (threshold 5, open 5 s). -/
def CircuitBreaker.init : CircuitBreaker := {}

def CircuitBreaker.onSuccess (cb : CircuitBreaker) : CircuitBreaker :=
  let sc := cb.successCount + 1
  if sc ≥ 2 then { cb with successCount := sc, failureCount := 0 }
  else { cb with successCount := sc }

def CircuitBreaker.onFailure (cb : CircuitBreaker) (now : Nat) : CircuitBreaker :=
  let fc := cb.failureCount + 1
  if fc ≥ cb.failureThreshold then
    { cb with openUntil := now + cb.openSeconds * 1000,
              successCount := 0, failureCount := 0 }
  else { cb with failureCount := fc }

/-- One `execute` call at time `now` (ms) whose wrapped function, if invoked,
would produce `r`. -/
def CircuitBreaker.execute (cb : CircuitBreaker) (now : Nat) (r : CallResult) :
    CircuitBreaker × CallOutcome :=
  if now < cb.openUntil then (cb, .rejected)
  else
    match r with
    | .success => (cb.onSuccess, .ran .success)
    | .failure => (cb.onFailure now, .ran .failure)

/-- Fold a sequence of timed calls through the breaker, keeping the state. -/
def applyCalls (cb : CircuitBreaker) (calls : List (Nat × CallResult)) :
    CircuitBreaker :=
  calls.foldl (fun s tr => (s.execute tr.1 tr.2).1) cb

/-! ## String and number parsing helpers (JS `BigInt`, lexicographic order) -/

/-- Value of one hex digit (0 for any other character). -/
def hexDigitVal (c : Char) : Nat :=
  if '0' ≤ c ∧ c ≤ '9' then c.toNat - '0'.toNat
  else if 'a' ≤ c ∧ c ≤ 'f' then c.toNat - 'a'.toNat + 10
  else if 'A' ≤ c ∧ c ≤ 'F' then c.toNat - 'A'.toNat + 10
  else 0

/-- Base-16 value of a hex string (no 0x marker). -/
def hexToNat (s : String) : Nat :=
  s.data.foldl (fun a c => a * 16 + hexDigitVal c) 0

/-- Base-10 value of a decimal string. -/
def decToNat (s : String) : Nat :=
  s.data.foldl (fun a c => a * 10 + (c.toNat - '0'.toNat)) 0

/-- JS-style test that `s` begins with `pre`. -/
def strStartsWith (s pre : String) : Bool :=
  pre.data.isPrefixOf s.data

/-- JS `BigInt(s)`: hex when the string carries a `0x` marker, else decimal. -/
def jsBigInt (s : String) : Nat :=
  if strStartsWith s "0x" then hexToNat (s.drop 2) else decToNat s

/-- Code-point lexicographic strict order on char lists, the order Postgres
applies to `ORDER BY event_id ASC` under a byte-wise collation. -/
def charListLtB : List Char → List Char → Bool
  | [], [] => false
  | [], _ :: _ => true
  | _ :: _, [] => false
  | a :: as, b :: bs =>
    if a < b then true else if b < a then false else charListLtB as bs

def strLtB (a b : String) : Bool := charListLtB a.data b.data

def strLeB (a b : String) : Bool := !(strLtB b a)

/-- Insert into a list sorted by the boolean relation `le`. -/
def insertSortedBy {α : Type} (le : α → α → Bool) (x : α) : List α → List α
  | [] => [x]
  | y :: ys => if le x y then x :: y :: ys else y :: insertSortedBy le x ys

/-- Insertion sort by a boolean relation, modelling a SQL `ORDER BY`. -/
def sortByLe {α : Type} (le : α → α → Bool) (l : List α) : List α :=
  l.foldr (insertSortedBy le) []

/-! ## Ingest event rows (packages/ingest/src/ingest.ts)

The digest `H` stands for the external sha-256 hex digest from node:crypto
that the source's `stablePartitionKey` wraps; everything the claims state is
structural in `H`. -/

/-- RPC log shape, field for field from the adapter's `Log` type (hex-string
encoded numbers). -/
structure Log where
  address : String
  blockHash : String
  blockNumber : String
  data : String
  logIndex : String
  topics : List String
  transactionHash : String
  transactionIndex : String
deriving DecidableEq, Repr

/-- JS `String.prototype.toLowerCase()` (per-character lowering). -/
def strToLower (s : String) : String := String.mk (s.data.map Char.toLower)

/-- Translated from `computePartitionKey`: digest of the lowercased address;
with more than one shard, prefix the decimal of the first 32 bits of the
digest modulo the shard count, a colon, then the digest. -/
def computePartitionKey (H : String → String) (address : String) (shards : Nat) : String :=
  let hex := H (strToLower address)
  if shards ≤ 1 then hex
  else
    let n := hexToNat (hex.take 8) % shards
    Nat.repr n ++ ":" ++ hex

/-- Row inserted into `infra.ingest_events`. -/
structure EventRow where
  event_id : String
  block_number : String
  block_hash : String
  address : String
  topic0 : String
  partition_key : String
  payload : Log
deriving DecidableEq, Repr

/-- Translated from `buildEventRow`: parse the hex-encoded positions, build
`event_id = blockHash ":" blockNumber ":" txIndex ":" logIndex` with the
numbers in variable-width decimal, and attach the partition key. -/
def buildEventRow (H : String → String) (log : Log) (addrShards : Nat) : EventRow :=
  let blockNumber := jsBigInt log.blockNumber
  let logIndex := jsBigInt log.logIndex
  let txIndex := jsBigInt log.transactionIndex
  let eventId := log.blockHash ++ ":" ++ Nat.repr blockNumber ++ ":" ++
    Nat.repr txIndex ++ ":" ++ Nat.repr logIndex
  { event_id := eventId
    block_number := Nat.repr blockNumber
    block_hash := log.blockHash
    address := log.address
    topic0 := log.topics.headD "0x"
    partition_key := computePartitionKey H log.address addrShards
    payload := log }

/-! ## Ingest publisher (packages/ingest/src/publisher.ts)

The outbox is a list of `(event_id, published_at)` rows; the database update
itself is modelled as succeeding (the DB is an external collaborator). -/

/-- Translated from `EventFetcher.fetchUnpublishedEvents`: unpublished rows
ordered by `event_id ASC`, limited to the batch size. -/
def fetchUnpublishedEvents (tbl : List (String × Option Nat)) (batchSize : Nat) :
    List String :=
  (sortByLe strLeB ((tbl.filter (fun p => p.2.isNone)).map Prod.fst)).take batchSize

/-- Translated from `markEventAsPublished`:
`UPDATE infra.ingest_outbox SET published_at = now() WHERE event_id = $1`. -/
def markEventAsPublished (tbl : List (String × Option Nat)) (eid : String)
    (now : Nat) : List (String × Option Nat) :=
  tbl.map fun p => if p.1 = eid then (p.1, some now) else p

/-- Translated from `EventProcessor.processEvent`: invoke the sink; stamp the
row on return; on a raise, stamp the row in the catch block as well. -/
def processEvent (tbl : List (String × Option Nat)) (eid : String) (now : Nat)
    (sinkResult : Except String Unit) : List (String × Option Nat) :=
  match sinkResult with
  | .ok _ => markEventAsPublished tbl eid now
  | .error _ => markEventAsPublished tbl eid now

/-! ## Ingest scanner loop (packages/ingest/src/ingest.ts, `IngestDaemon.start`) -/

structure ScanConfig where
  pollIntervalMs : Nat
  stepInit : Nat
  stepMin : Nat
  stepMax : Nat
deriving DecidableEq, Repr

/-- Cursor value plus the adaptive step, the state the loop carries. -/
structure ScanState where
  cursor : Nat
  step : Nat
deriving DecidableEq, Repr

/-- Upper bound of the chunk: `from = hwm + 1`,
`to = head < from + step - 1 ? head : from + step - 1`. -/
def chunkTo (head hwm step : Nat) : Nat :=
  if head < hwm + 1 + step - 1 then head else hwm + 1 + step - 1

/-- One loop iteration.  `ok = false` models any raise in the try block (head
fetch, log fetch or commit failure): the catch narrows the step and leaves the
cursor untouched.  With `ok = true`, a head at or below the cursor only
sleeps; otherwise the transaction commits the cursor at the chunk bound and
the step widens. -/
def scanIteration (cfg : ScanConfig) (st : ScanState) (head : Nat) (ok : Bool) :
    ScanState :=
  if ok then
    if head ≤ st.cursor then st
    else
      { cursor := chunkTo head st.cursor st.step
        step := min (st.step * 2) cfg.stepMax }
  else
    { cursor := st.cursor, step := max (st.step / 2) cfg.stepMin }

/-- Fold a trace of `(head, ok)` iterations through the scanner loop. -/
def applyScan (cfg : ScanConfig) (st : ScanState) (evs : List (Nat × Bool)) :
    ScanState :=
  evs.foldl (fun s e => scanIteration cfg s e.1 e.2) st

/-! ## Domain executor (packages/executor-evm) -/

/-- Public shape of a `domain.domain_outbox` row (minus the key). -/
structure DomainRow where
  kind : String
  payload : String
  publishedAt : Option Nat
  txHash : Option String
deriving DecidableEq, Repr

/-- The domain outbox table as a partial map keyed by `command_key` (its
primary key). -/
abbrev DomainTable : Type := String → Option DomainRow

/-- Translated from the executor's settle statement:
`UPDATE domain.domain_outbox SET published_at = now(), tx_hash = $2
 WHERE command_key = $1 AND published_at IS NULL`. -/
def guardedUpdate (k tx : String) (now : Nat) (tbl : DomainTable) : DomainTable :=
  fun key =>
    if key = k then
      match tbl k with
      | some r =>
        if r.publishedAt = none then
          some { r with publishedAt := some now, txHash := some tx }
        else some r
      | none => none
    else tbl key

/-- Ambient context available to an executor run (write-pool endpoint and any
per-process pool state); the hash computation never consults it. -/
structure ExecEnv where
  rpcWriteUrl : String
  writePoolState : Nat
deriving DecidableEq, Repr

/-- Translated from `EvmExecutor.run`'s per-row hash:
`'0x' + toHex32(row.command_key)` — no RPC, no read of the environment. -/
def executorTxHash : ExecEnv → String → String :=
  fun _ commandKey => "0x" ++ toHex32 commandKey

/-- Per-row step of `EvmExecutor.run`: compute the hash locally, then run the
guarded update. -/
def executorProcessRow (env : ExecEnv) (now : Nat) (k : String)
    (tbl : DomainTable) : DomainTable :=
  guardedUpdate k (executorTxHash env k) now tbl

/-! ## Dispatcher (packages/dispatch/src/index.ts)

The inbox is the `infra.inbox` table: rows keyed by `(event_id,
handler_kind)`.  Handler side effects made through the transaction handle are
abstracted as an opaque list of writes; a batch handler maps its claimed
events to the writes it performs plus an optional raised error message. -/

inductive InboxStatus
  | PENDING
  | ACK
  | FAIL
  | DLQ
deriving DecidableEq, BEq, Repr

structure InboxEntry where
  status : InboxStatus
  attempts : Nat
  lastError : Option String
  blockNumber : Nat
  partitionKey : String
  firstSeenAt : Nat
  lastAttemptAt : Option Nat
deriving DecidableEq, Repr

/-- Row shape handed to the batch handler (the dispatcher's SELECT list). -/
structure InboxEvent where
  eventId : String
  blockNumber : Nat
  partitionKey : String
  address : String
  topic0 : String
  payload : String
deriving DecidableEq, Repr

/-- Joined view of `infra.ingest_outbox` and `infra.ingest_events`:
`published` is `published_at IS NOT NULL`. -/
structure OutboxJoinRow where
  eventId : String
  blockNumber : Nat
  partitionKey : String
  address : String
  topic0 : String
  payload : String
  published : Bool
deriving DecidableEq, Repr

abbrev Inbox : Type := List ((String × String) × InboxEntry)

/-- First row of the inbox with the given `(event_id, handler_kind)` key. -/
def inboxLookup (ib : Inbox) (k : String × String) : Option InboxEntry :=
  match ib with
  | [] => none
  | e :: es => if e.1 = k then some e.2 else inboxLookup es k

/-- Database state a dispatcher transaction touches: the inbox plus the
handler's committed writes. -/
structure DispatchState where
  inbox : Inbox
  effects : List String
deriving DecidableEq, Repr

/-- A batch handler: from the claimed events to the writes it issues through
the transaction handle, plus `some message` when it raises after issuing
them. -/
abbrev Handler : Type := List InboxEvent → List String × Option String

def toInboxEvent (r : OutboxJoinRow) : InboxEvent :=
  { eventId := r.eventId
    blockNumber := r.blockNumber
    partitionKey := r.partitionKey
    address := r.address
    topic0 := r.topic0
    payload := r.payload }

/-- Translated from the dispatcher's selection query: published events,
partition key `LIKE selector%` when a selector is configured, and no inbox
row for this handler in any status (`NOT EXISTS`), ordered by block number,
limited to the batch size. -/
def selectBatch (selector hk : String) (batchSize : Nat)
    (tbl : List OutboxJoinRow) (ib : Inbox) : List InboxEvent :=
  let eligible := tbl.filter fun e =>
    e.published &&
    (selector.isEmpty || strStartsWith e.partitionKey selector) &&
    (inboxLookup ib (e.eventId, hk)).isNone
  ((sortByLe (fun a b => Nat.ble a.blockNumber b.blockNumber) eligible).map
    toInboxEvent).take batchSize

/-- Fresh inbox row as inserted by the claim statement:
`status='PENDING', attempts=0, last_error=NULL, first_seen_at=now(),
last_attempt_at=NULL`. -/
def pendingEntry (r : InboxEvent) (now : Nat) : InboxEntry :=
  { status := .PENDING
    attempts := 0
    lastError := none
    blockNumber := r.blockNumber
    partitionKey := r.partitionKey
    firstSeenAt := now
    lastAttemptAt := none }

/-- Bulk claim insert (`ON CONFLICT DO NOTHING` already filtered the rows). -/
def insertPendingRows (hk : String) (now : Nat) (rows : List InboxEvent)
    (ib : Inbox) : Inbox :=
  rows.foldl (fun acc r => acc ++ [((r.eventId, hk), pendingEntry r now)]) ib

/-- Row transform of the ACK settle statement: `status='ACK',
attempts = attempts + 1, last_attempt_at = now(), last_error = NULL`. -/
def ackEntry (e : InboxEntry) (now : Nat) : InboxEntry :=
  { e with status := .ACK, attempts := e.attempts + 1,
           lastAttemptAt := some now, lastError := none }

/-- Row transform of the failure settle statement: `attempts = attempts + 1`,
DLQ when `attempts + 1 >= max_attempts` else FAIL, truncated error. -/
def failEntry (e : InboxEntry) (maxAttempts : Nat) (errMsg : String)
    (now : Nat) : InboxEntry :=
  { e with attempts := e.attempts + 1
           status := if e.attempts + 1 ≥ maxAttempts then .DLQ else .FAIL
           lastAttemptAt := some now
           lastError := some errMsg }

/-- Settle on handler success over the processed ids of this handler. -/
def settleAck (hk : String) (ids : List String) (now : Nat) (ib : Inbox) :
    Inbox :=
  ib.map fun e =>
    if e.1.2 = hk ∧ e.1.1 ∈ ids then (e.1, ackEntry e.2 now) else e

/-- JS `String.prototype.slice(0, n)`. -/
def truncateTo (s : String) (n : Nat) : String := String.mk (s.data.take n)

/-- Settle on handler failure over the processed ids of this handler. -/
def settleFail (hk : String) (ids : List String) (maxAttempts : Nat)
    (errMsg : String) (now : Nat) (ib : Inbox) : Inbox :=
  ib.map fun e =>
    if e.1.2 = hk ∧ e.1.1 ∈ ids then
      (e.1, failEntry e.2 maxAttempts errMsg now)
    else e

/-- Translated from the dispatcher's per-batch transaction: claim the rows
that have no inbox entry yet, return unchanged when none were claimed, run
the handler on the claimed rows, and settle ACK or FAIL/DLQ.  The handler's
error is caught inside the transaction callback, so the transaction commits
in both branches — including the writes the handler issued before raising. -/
def runBatchTx (maxAttempts : Nat) (hk : String) (now : Nat)
    (rows : List InboxEvent) (handler : Handler) (st : DispatchState) :
    DispatchState :=
  let inserted := rows.filter fun r => (inboxLookup st.inbox (r.eventId, hk)).isNone
  if inserted.isEmpty then st
  else
    let inbox1 := insertPendingRows hk now inserted st.inbox
    let toProcess := rows.filter fun r => inserted.any fun i => i.eventId == r.eventId
    match handler toProcess with
    | (ws, none) =>
      { inbox := settleAck hk (toProcess.map InboxEvent.eventId) now inbox1
        effects := st.effects ++ ws }
    | (ws, some err) =>
      { inbox := settleFail hk (toProcess.map InboxEvent.eventId) maxAttempts
          (truncateTo err 500) now inbox1
        effects := st.effects ++ ws }

structure DispatchConfig where
  handlerKind : String
  partitionSelector : String := ""
  maxAttempts : Nat := 5
  batchSize : Nat := 200
deriving DecidableEq, Repr

/-- One iteration of `runWithInboxBatch`: select a batch; an empty selection
only sleeps, otherwise the batch transaction runs. -/
def dispatchIteration (cfg : DispatchConfig) (now : Nat)
    (tbl : List OutboxJoinRow) (handler : Handler) (st : DispatchState) :
    DispatchState :=
  let rows := selectBatch cfg.partitionSelector cfg.handlerKind cfg.batchSize
    tbl st.inbox
  if rows.isEmpty then st
  else runBatchTx cfg.maxAttempts cfg.handlerKind now rows handler st

/-- NULLS FIRST ascending order on `last_attempt_at`. -/
def optNatLeNullsFirst (a b : Option Nat) : Bool :=
  match a, b with
  | none, _ => true
  | some _, none => false
  | some x, some y => Nat.ble x y

/-- Translated from `dlqFailures`: pick up to `limit` FAIL rows of the
handler (by `last_attempt_at ASC NULLS FIRST`) and reset them to
`status='PENDING', last_error=NULL`. -/
def dlqFailuresReset (hk : String) (limit : Nat) (ib : Inbox) : Inbox :=
  let failRows : Inbox :=
    ib.filter fun e => e.1.2 == hk && e.2.status == InboxStatus.FAIL
  let ids : List String := ((sortByLe
      (fun a b => optNatLeNullsFirst a.2.lastAttemptAt b.2.lastAttemptAt)
      failRows).map (fun e => e.1.1)).take limit
  if ids.isEmpty then ib
  else ib.map fun e =>
    if e.1.2 = hk ∧ e.1.1 ∈ ids then
      (e.1, { e.2 with status := .PENDING, lastError := none })
    else e

/-! ## Executor transition counting (for the exactly-once submission claim) -/

/-- Whether the table holds an unpublished row for `k`. -/
def isUnpublishedAt (tbl : DomainTable) (k : String) : Bool :=
  match tbl k with
  | some r => r.publishedAt.isNone
  | none => false

/-- One guarded-update request: `(command_key, tx_hash, now)`. -/
abbrev DomainUpdate : Type := String × String × Nat

def applyGuarded (u : DomainUpdate) (tbl : DomainTable) : DomainTable :=
  guardedUpdate u.1 u.2.1 u.2.2 tbl

/-- Number of steps along an update sequence at which the row for `k` goes
from unpublished to published. -/
def transCount (k : String) : DomainTable → List DomainUpdate → Nat
  | _, [] => 0
  | tbl, u :: us =>
    (if isUnpublishedAt tbl k && !(isUnpublishedAt (applyGuarded u tbl) k)
     then 1 else 0) + transCount k (applyGuarded u tbl) us

/-! ## Concrete inputs used by counterexamples and witnesses -/

/-- A fixed 64-hex-char digest standing in for the external sha-256 where a
concrete digest value is needed. -/
def constDigest : String → String :=
  fun _ => "00112233445566778899aabbccddeeff00112233445566778899aabbccddeeff"

/-- Log in block 10 (hex 0xa) whose block hash starts with `0xaa`. -/
def logBlockTen : Log :=
  { address := "0xa1"
    blockHash := "0xaa"
    blockNumber := "0xa"
    data := "0x"
    logIndex := "0x0"
    topics := ["0xt0"]
    transactionHash := "0xh1"
    transactionIndex := "0x0" }

/-- Log in block 2 whose block hash starts with `0xbb`. -/
def logBlockTwo : Log :=
  { address := "0xb1"
    blockHash := "0xbb"
    blockNumber := "0x2"
    data := "0x"
    logIndex := "0x0"
    topics := ["0xt0"]
    transactionHash := "0xh2"
    transactionIndex := "0x0" }

/-- Event row handed to the handler in the dispatcher counterexample. -/
def cexRow : InboxEvent :=
  { eventId := "e1", blockNumber := 1, partitionKey := "p",
    address := "0xa", topic0 := "0xt", payload := "pl" }

/-- Handler that issues one write through the transaction handle and then
raises. -/
def writeThenRaiseHandler : Handler := fun _ => (["w1"], some "boom")

/-- Dispatcher state after one batch over `cexRow` with the raising handler,
starting from an empty inbox and no committed effects. -/
def cexAfter : DispatchState :=
  runBatchTx 5 "H" 10 [cexRow] writeThenRaiseHandler ⟨[], []⟩

/-- Published joined row for the FAIL-reset scenario. -/
def resetJoinRow : OutboxJoinRow :=
  { eventId := "e1", blockNumber := 7, partitionKey := "pk",
    address := "0xa", topic0 := "0xt", payload := "pl", published := true }

/-- Inbox after the handler `"H"` failed once on event `"e1"`. -/
def resetInboxFail : Inbox :=
  [(("e1", "H"),
    { status := .FAIL, attempts := 1, lastError := some "boom",
      blockNumber := 7, partitionKey := "pk", firstSeenAt := 1,
      lastAttemptAt := some 2 })]

/-! ## Auxiliary lemmas -/

theorem natHexAux_length_le (fuel : Nat) : ∀ (n k : Nat) (acc : List Char),
    n < 16 ^ k → 1 ≤ k → (natHexAux fuel n acc).length ≤ k + acc.length := by
  induction fuel with
  | zero => intro n k acc _ _; simp only [natHexAux]; omega
  | succ fuel ih =>
    intro n k acc h hk
    simp only [natHexAux]
    by_cases h16 : n < 16
    · simp only [h16, if_true, List.length_cons]; omega
    · simp only [h16, if_false]
      have hk2 : 2 ≤ k := by
        by_contra hc
        have hk1 : k = 1 := by omega
        subst hk1
        rw [pow_one] at h
        omega
      have hdiv : n / 16 < 16 ^ (k - 1) := by
        have hmul : 16 ^ (k - 1) * 16 = 16 ^ k := by
          rw [← pow_succ]; congr 1; omega
        rw [Nat.div_lt_iff_lt_mul (by omega : (0:Nat) < 16)]
        omega
      have := ih (n / 16) (k - 1) (Nat.digitChar (n % 16) :: acc) hdiv (by omega)
      simp only [List.length_cons] at this
      omega

theorem natHexList_length_le (n : Nat) (h : n < 2 ^ 32) :
    (natHexList n).length ≤ 8 := by
  have h16 : n < 16 ^ 8 := by norm_num at h ⊢; omega
  have := natHexAux_length_le (n + 1) n 8 [] h16 (by omega)
  simpa using this

theorem padStartList_length (l : List Char) (len : Nat) (c : Char)
    (h : l.length ≤ len) : (padStartList l len c).length = len := by
  simp [padStartList]; omega

theorem takeLast_length_le (l : List Char) (k : Nat) :
    (takeLast l k).length ≤ k := by
  simp [takeLast]; omega

theorem fnvAcc_bounds (s : String) :
    (fnvAcc s).1 < 2 ^ 32 ∧ (fnvAcc s).2 < 2 ^ 32 := by
  have key : ∀ (l : List Char) (h : Nat × Nat), h.1 < 2 ^ 32 → h.2 < 2 ^ 32 →
      (l.foldl fnvStep h).1 < 2 ^ 32 ∧ (l.foldl fnvStep h).2 < 2 ^ 32 := by
    intro l
    induction l with
    | nil => intro h h1 h2; exact ⟨h1, h2⟩
    | cons c cs ih =>
      intro h _ _
      exact ih _ (Nat.mod_lt _ (by norm_num)) (Nat.mod_lt _ (by norm_num))
  exact key _ _ (by norm_num) (by decide)

theorem xor_lt_two_pow_32 {x y : Nat} (hx : x < 2 ^ 32) (hy : y < 2 ^ 32) :
    x ^^^ y < 2 ^ 32 :=
  Nat.bitwise_lt hx hy

theorem toHex32_length (k : String) : (toHex32 k).length = 32 := by
  obtain ⟨h1b, h2b⟩ := fnvAcc_bounds k
  have e1 := padStartList_length (natHexList (fnvAcc k).1) 8 '0'
    (natHexList_length_le _ h1b)
  have e2 := padStartList_length (natHexList (fnvAcc k).2) 8 '0'
    (natHexList_length_le _ h2b)
  have e3 := padStartList_length (natHexList ((fnvAcc k).1 ^^^ (fnvAcc k).2)) 8 '0'
    (natHexList_length_le _ (xor_lt_two_pow_32 h1b h2b))
  have e4 := padStartList_length
    (takeLast (int32HexList (imul (fnvAcc k).1 ((fnvAcc k).2 / 2))) 8) 8 '0'
    (takeLast_length_le _ 8)
  simp only [toHex32, String.length_mk, List.length_append, e1, e2, e3, e4]

/-! ## Claim theorems -/

/-- Claim C3 counterexample: two concrete logs built by `buildEventRow` whose
`event_id` strings order lexicographically opposite to their numeric block
numbers (the block-10 event id sorts before the block-2 event id because the
id starts with the block hash). -/
theorem event_id_order_vs_block_cex :
    strLtB (buildEventRow constDigest logBlockTen 1).event_id
      (buildEventRow constDigest logBlockTwo 1).event_id = true ∧
    jsBigInt logBlockTwo.blockNumber < jsBigInt logBlockTen.blockNumber := by
  decide

/-- Claim C3 (amended): the publisher's batch selection orders rows by
lexicographic `event_id ASC`; because `event_id` begins with the block hash
and embeds the block number in variable-width decimal, this order does not
agree with numeric block order — the concrete unpublished pair below comes
back with the block-10 event before the block-2 event. -/
theorem publisher_order_not_block_order :
    fetchUnpublishedEvents
      [((buildEventRow constDigest logBlockTwo 1).event_id, none),
       ((buildEventRow constDigest logBlockTen 1).event_id, none)] 500 =
      [(buildEventRow constDigest logBlockTen 1).event_id,
       (buildEventRow constDigest logBlockTwo 1).event_id] ∧
    jsBigInt logBlockTwo.blockNumber < jsBigInt logBlockTen.blockNumber := by
  decide

/-- Claim C4: for every outbox row the publisher processes, after the sink
returns or raises the row is stamped `published_at = now()`; both branches of
`processEvent` run the same update, so a sink failure never leaves the row
unstamped. -/
theorem publisher_stamps_regardless_of_sink
    (tbl : List (String × Option Nat)) (eid : String) (now : Nat)
    (res : Except String Unit) (p : String × Option Nat)
    (hp : p ∈ processEvent tbl eid now res) (hid : p.1 = eid) :
    processEvent tbl eid now res = markEventAsPublished tbl eid now ∧
    p.2 = some now := by
  have hpe : processEvent tbl eid now res = markEventAsPublished tbl eid now := by
    cases res <;> rfl
  refine ⟨hpe, ?_⟩
  rw [hpe] at hp
  simp only [markEventAsPublished, List.mem_map] at hp
  obtain ⟨q, _, hfq⟩ := hp
  by_cases h : q.1 = eid
  · rw [if_pos h] at hfq; rw [← hfq]
  · rw [if_neg h] at hfq; rw [← hfq] at hid; exact absurd hid h

theorem publisher_stamps_regardless_of_sink_witness :
    processEvent [("e1", none)] "e1" 5 (Except.error "sink down") =
      markEventAsPublished [("e1", none)] "e1" 5 ∧
    (("e1", some 5) : String × Option Nat).2 = some 5 :=
  publisher_stamps_regardless_of_sink [("e1", none)] "e1" 5
    (Except.error "sink down") ("e1", some 5) (by decide) rfl

/-- Claim C9 counterexample: with more than one shard the code appends the
entire digest after the colon (its first 8 hex chars included), not the rest
of the digest after the first 32 bits. -/
theorem partition_key_keeps_full_digest_cex :
    computePartitionKey constDigest "0xAbC" 2 =
      "1:00112233445566778899aabbccddeeff00112233445566778899aabbccddeeff" ∧
    computePartitionKey constDigest "0xAbC" 2 ≠
      Nat.repr (hexToNat ((constDigest "0xabc").take 8) % 2) ++ ":" ++
        (constDigest "0xabc").drop 8 := by
  decide

/-- Claim C9 (amended): `partition_key` is a pure function of the lowercased
address and the shard count — the digest itself when `shards ≤ 1`, and
`decimal((first 32 bits of H) mod N) ":" H` (the whole digest) otherwise —
so two addresses equal up to letter case get equal keys under the same shard
configuration. -/
theorem partition_key_stability_and_shape
    (H : String → String) (a b : String) (shards : Nat)
    (hab : strToLower a = strToLower b) :
    computePartitionKey H a shards = computePartitionKey H b shards ∧
    (shards ≤ 1 → computePartitionKey H a shards = H (strToLower a)) ∧
    (2 ≤ shards → computePartitionKey H a shards =
      Nat.repr (hexToNat ((H (strToLower a)).take 8) % shards) ++ ":" ++
        H (strToLower a)) := by
  unfold computePartitionKey
  rw [hab]
  refine ⟨rfl, ?_, ?_⟩
  · intro h; rw [if_pos h]
  · intro h; rw [if_neg (by omega)]

theorem partition_key_stability_and_shape_witness :
    computePartitionKey constDigest "0xAB" 2 =
      computePartitionKey constDigest "0xab" 2 ∧
    ((2:Nat) ≤ 1 → computePartitionKey constDigest "0xAB" 2 =
      constDigest (strToLower "0xAB")) ∧
    ((2:Nat) ≤ 2 → computePartitionKey constDigest "0xAB" 2 =
      Nat.repr (hexToNat ((constDigest (strToLower "0xAB")).take 8) % 2) ++ ":" ++
        constDigest (strToLower "0xAB")) :=
  partition_key_stability_and_shape constDigest "0xAB" "0xab" 2 (by decide)

/-- Claim C10 counterexample: the digest the executor records is not always
32 hex characters — for `command_key = "aj"` the fourth 8-char group renders
a negative `Math.imul` result, so the string contains a minus sign. -/
theorem toHex32_not_hex_cex :
    toHex32 "aj" = "4524f932c76f1561824bec53-f81b9a0" ∧
    (toHex32 "aj").data.all isLowerHexDigit = false := by
  decide

/-- Claim C10 (amended): the tx_hash the executor records is `0x` followed by
the 32-character string `toHex32(command_key)` — a pure function of the
command key alone: it reads nothing from the execution environment (write
pool or RPC), so any two executor runs compute identical values. -/
theorem executor_txhash_local_deterministic :
    ∀ (env1 env2 : ExecEnv) (k : String),
      executorTxHash env1 k = executorTxHash env2 k ∧
      executorTxHash env1 k = "0x" ++ toHex32 k ∧
      (toHex32 k).length = 32 := by
  intro env1 env2 k
  exact ⟨rfl, rfl, toHex32_length k⟩

/-! ## Scanner lemmas and Claim C5 -/

theorem scanIteration_cursor_le (cfg : ScanConfig) (st : ScanState)
    (head : Nat) (ok : Bool) :
    st.cursor ≤ (scanIteration cfg st head ok).cursor := by
  unfold scanIteration chunkTo
  split_ifs <;> simp <;> omega

theorem applyScan_cursor_mono (cfg : ScanConfig) (st : ScanState)
    (evs : List (Nat × Bool)) :
    st.cursor ≤ (applyScan cfg st evs).cursor := by
  induction evs generalizing st with
  | nil => exact Nat.le_refl _
  | cons e es ih =>
    have hstep := scanIteration_cursor_le cfg st e.1 e.2
    have htail := ih (scanIteration cfg st e.1 e.2)
    have hunf : applyScan cfg st (e :: es) =
        applyScan cfg (scanIteration cfg st e.1 e.2) es := rfl
    rw [hunf]
    omega

/-- Claim C5: the committed cursor values of a single scanner loop are
non-decreasing along any trace of iterations, and every committing iteration
writes `to = min(head, hwm + step)`, strictly greater than the read
high-water mark `hwm` whenever the head is ahead and the step is positive. -/
theorem scanner_cursor_monotone
    (cfg : ScanConfig) (st : ScanState) (head : Nat)
    (hhead : st.cursor < head) (hstep : 1 ≤ st.step) :
    (∀ evs : List (Nat × Bool), st.cursor ≤ (applyScan cfg st evs).cursor) ∧
    (scanIteration cfg st head true).cursor = min head (st.cursor + st.step) ∧
    st.cursor < (scanIteration cfg st head true).cursor := by
  have hmin : (scanIteration cfg st head true).cursor =
      min head (st.cursor + st.step) := by
    unfold scanIteration chunkTo
    rw [if_pos rfl, if_neg (Nat.not_le.mpr hhead)]
    show (if head < st.cursor + 1 + st.step - 1 then head
      else st.cursor + 1 + st.step - 1) = min head (st.cursor + st.step)
    split_ifs <;> omega
  refine ⟨fun evs => applyScan_cursor_mono cfg st evs, hmin, ?_⟩
  rw [hmin]
  omega

theorem scanner_cursor_monotone_witness :
    (∀ evs : List (Nat × Bool),
      0 ≤ (applyScan ⟨300, 1000, 500, 20000⟩ ⟨0, 10⟩ evs).cursor) ∧
    (scanIteration ⟨300, 1000, 500, 20000⟩ ⟨0, 10⟩ 100 true).cursor =
      min 100 10 ∧
    0 < (scanIteration ⟨300, 1000, 500, 20000⟩ ⟨0, 10⟩ 100 true).cursor :=
  scanner_cursor_monotone ⟨300, 1000, 500, 20000⟩ ⟨0, 10⟩ 100 (by decide)
    (by decide)

/-! ## Executor lemmas and Claim C6 -/

theorem guardedUpdate_second_noop (tbl : DomainTable) (k tx1 tx2 : String)
    (t1 t2 : Nat) :
    guardedUpdate k tx2 t2 (guardedUpdate k tx1 t1 tbl) =
      guardedUpdate k tx1 t1 tbl := by
  funext key
  unfold guardedUpdate
  by_cases hkey : key = k
  · subst hkey
    rw [if_pos rfl, if_pos rfl]
    cases htbl : tbl key with
    | none => simp
    | some r =>
      cases hpub : r.publishedAt with
      | none => simp [hpub]
      | some t => simp [hpub]
  · rw [if_neg hkey, if_neg hkey]

theorem isUnpublishedAt_preserved (tbl : DomainTable) (uk utx : String)
    (unow : Nat) (k : String) (h : isUnpublishedAt tbl k = false) :
    isUnpublishedAt (guardedUpdate uk utx unow tbl) k = false := by
  unfold isUnpublishedAt at h ⊢
  unfold guardedUpdate
  by_cases hkey : k = uk
  · subst hkey
    rw [if_pos rfl]
    cases htbl : tbl k with
    | none => simp
    | some r =>
      rw [htbl] at h
      cases hpub : r.publishedAt with
      | none => simp [hpub] at h
      | some t => simp [hpub]
  · rw [if_neg hkey]; exact h

theorem transCount_eq_zero (k : String) (tbl : DomainTable)
    (us : List DomainUpdate) (h : isUnpublishedAt tbl k = false) :
    transCount k tbl us = 0 := by
  induction us generalizing tbl with
  | nil => rfl
  | cons u us ih =>
    rcases u with ⟨uk, utx, unow⟩
    unfold transCount
    rw [h]
    have hz : transCount k (applyGuarded (uk, utx, unow) tbl) us = 0 :=
      ih _ (isUnpublishedAt_preserved tbl uk utx unow k h)
    simp [hz]

theorem transCount_le_one (k : String) (tbl : DomainTable)
    (us : List DomainUpdate) : transCount k tbl us ≤ 1 := by
  induction us generalizing tbl with
  | nil => simp [transCount]
  | cons u us ih =>
    unfold transCount
    cases h2 : isUnpublishedAt (applyGuarded u tbl) k with
    | true =>
      have htail := ih (applyGuarded u tbl)
      simp only [h2, Bool.not_true, Bool.and_false]
      simpa using htail
    | false =>
      rw [transCount_eq_zero k _ us h2]
      split <;> omega

/-- Claim C6: the executor's settle UPDATE carries a
`WHERE command_key = $ AND published_at IS NULL` guard, so once one executor
run has published a command, a racing second run's update changes nothing,
and along any sequence of guarded updates the row for a command key goes
from unpublished to published at most once. -/
theorem domain_submission_exactly_once :
    ∀ (tbl : DomainTable) (env1 env2 : ExecEnv) (k : String) (t1 t2 : Nat)
      (us : List DomainUpdate),
      executorProcessRow env2 t2 k (executorProcessRow env1 t1 k tbl) =
        executorProcessRow env1 t1 k tbl ∧
      (∀ tx1 tx2, guardedUpdate k tx2 t2 (guardedUpdate k tx1 t1 tbl) =
        guardedUpdate k tx1 t1 tbl) ∧
      transCount k tbl us ≤ 1 := by
  intro tbl env1 env2 k t1 t2 us
  refine ⟨?_, fun tx1 tx2 => guardedUpdate_second_noop tbl k tx1 tx2 t1 t2,
    transCount_le_one k tbl us⟩
  unfold executorProcessRow
  exact guardedUpdate_second_noop tbl k (executorTxHash env1 k)
    (executorTxHash env2 k) t1 t2

/-! ## Circuit breaker: Claims C7 and C8 -/

/-- Claim C7: from the fresh breaker, five consecutive failures (the default
threshold) set the open window to `now + 5000` ms, and any call inside that
window is rejected with the distinguished circuit-open outcome, leaving the
state untouched and never invoking the wrapped function. -/
theorem circuit_opens_after_threshold_failures
    (t1 t2 t3 t4 t5 t : Nat) (r : CallResult) (ht : t < t5 + 5000) :
    (applyCalls CircuitBreaker.init
      [(t1, .failure), (t2, .failure), (t3, .failure), (t4, .failure),
       (t5, .failure)]).openUntil = t5 + 5000 ∧
    (applyCalls CircuitBreaker.init
      [(t1, .failure), (t2, .failure), (t3, .failure), (t4, .failure),
       (t5, .failure)]).execute t r =
      (applyCalls CircuitBreaker.init
        [(t1, .failure), (t2, .failure), (t3, .failure), (t4, .failure),
         (t5, .failure)], CallOutcome.rejected) := by
  have hfold : applyCalls CircuitBreaker.init
      [(t1, .failure), (t2, .failure), (t3, .failure), (t4, .failure),
       (t5, .failure)] =
      { failureThreshold := 5, openSeconds := 5, failureCount := 0,
        successCount := 0, openUntil := t5 + 5000 } := by
    simp [applyCalls, CircuitBreaker.execute, CircuitBreaker.onFailure,
      CircuitBreaker.init, Nat.not_lt_zero]
  rw [hfold]
  refine ⟨rfl, ?_⟩
  unfold CircuitBreaker.execute
  rw [if_pos ht]

theorem circuit_opens_after_threshold_failures_witness :
    (applyCalls CircuitBreaker.init
      [(0, .failure), (1, .failure), (2, .failure), (3, .failure),
       (4, .failure)]).openUntil = 4 + 5000 ∧
    (applyCalls CircuitBreaker.init
      [(0, .failure), (1, .failure), (2, .failure), (3, .failure),
       (4, .failure)]).execute 5003 .success =
      (applyCalls CircuitBreaker.init
        [(0, .failure), (1, .failure), (2, .failure), (3, .failure),
         (4, .failure)], CallOutcome.rejected) :=
  circuit_opens_after_threshold_failures 0 1 2 3 4 5003 .success (by decide)

/-- Claim C8 counterexample: open the breaker with five failures at time 0
(open until 5000 ms); the probe at 5000 runs and fails, yet the very next
call at 5001 is *not* rejected — a failed probe does not re-open the breaker,
because the failure counter was reset to zero when it opened. -/
theorem probe_failure_not_reopening_cex :
    ((applyCalls CircuitBreaker.init
        (List.replicate 5 (0, CallResult.failure))).execute 5000
        CallResult.failure).2 = CallOutcome.ran CallResult.failure ∧
    ((((applyCalls CircuitBreaker.init
        (List.replicate 5 (0, CallResult.failure))).execute 5000
        CallResult.failure).1).execute 5001 CallResult.failure).2 ≠
      CallOutcome.rejected := by
  decide

/-- Claim C8 (amended): when the open window has elapsed and the probe fails,
the breaker does not return to Open — the window stays where it was, the
failure counter merely increments (when still below the threshold), and the
call following the failed probe is executed rather than rejected. -/
theorem probe_failure_keeps_window
    (cb : CircuitBreaker) (p t : Nat) (r : CallResult)
    (hopen : cb.openUntil ≤ p)
    (hbelow : cb.failureCount + 1 < cb.failureThreshold)
    (hpt : p ≤ t) :
    (cb.execute p .failure).2 = .ran .failure ∧
    (cb.execute p .failure).1.openUntil = cb.openUntil ∧
    (cb.execute p .failure).1.failureCount = cb.failureCount + 1 ∧
    ((cb.execute p .failure).1.execute t r).2 = .ran r := by
  have hexec : cb.execute p .failure = (cb.onFailure p, .ran .failure) := by
    unfold CircuitBreaker.execute
    rw [if_neg (Nat.not_lt.mpr hopen)]
  have hfail : cb.onFailure p = { cb with failureCount := cb.failureCount + 1 } := by
    unfold CircuitBreaker.onFailure
    rw [if_neg (by omega)]
  rw [hexec, hfail]
  refine ⟨rfl, rfl, rfl, ?_⟩
  unfold CircuitBreaker.execute
  rw [if_neg (Nat.not_lt.mpr (Nat.le_trans hopen hpt))]
  cases r <;> rfl

/-! ## Dispatcher lemmas -/

theorem inboxLookup_cons (e : (String × String) × InboxEntry) (es : Inbox)
    (k : String × String) :
    inboxLookup (e :: es) k = if e.1 = k then some e.2 else inboxLookup es k :=
  rfl

theorem inboxLookup_append_of_none (ib1 ib2 : Inbox) (k : String × String)
    (h : inboxLookup ib1 k = none) :
    inboxLookup (ib1 ++ ib2) k = inboxLookup ib2 k := by
  induction ib1 with
  | nil => rfl
  | cons e es ih =>
    rw [List.cons_append, inboxLookup_cons]
    rw [inboxLookup_cons] at h
    by_cases hk : e.1 = k
    · rw [if_pos hk] at h; exact absurd h (by simp)
    · rw [if_neg hk] at h ⊢
      exact ih h

theorem insertPendingRows_eq_append (hk : String) (now : Nat)
    (rows : List InboxEvent) (ib : Inbox) :
    insertPendingRows hk now rows ib =
      ib ++ rows.map (fun r => ((r.eventId, hk), pendingEntry r now)) := by
  induction rows generalizing ib with
  | nil => simp [insertPendingRows]
  | cons r rs ih =>
    unfold insertPendingRows at ih ⊢
    rw [List.foldl_cons, ih (ib ++ [((r.eventId, hk), pendingEntry r now)])]
    simp

theorem inboxLookup_map_pending (hk : String) (now : Nat)
    (l : List InboxEvent) (r : InboxEvent) (hmem : r ∈ l)
    (hnd : (l.map InboxEvent.eventId).Nodup) :
    inboxLookup (l.map fun x => ((x.eventId, hk), pendingEntry x now))
      (r.eventId, hk) = some (pendingEntry r now) := by
  induction l with
  | nil => cases hmem
  | cons a as ih =>
    rw [List.map_cons] at hnd ⊢
    unfold inboxLookup
    by_cases hk1 : ((a.eventId, hk) : String × String) = (r.eventId, hk)
    · rw [if_pos hk1]
      have hid : a.eventId = r.eventId := congrArg Prod.fst hk1
      rcases List.mem_cons.mp hmem with hra | hras
      · rw [hra]
      · exfalso
        have hmapped : r.eventId ∈ as.map InboxEvent.eventId :=
          List.mem_map_of_mem _ hras
        rw [← hid] at hmapped
        exact (List.nodup_cons.mp hnd).1 hmapped
    · rw [if_neg hk1]
      have hne : r ≠ a := by
        intro hra
        exact hk1 (by rw [hra])
      have hras : r ∈ as := by
        rcases List.mem_cons.mp hmem with h1 | h2
        · exact absurd h1 hne
        · exact h2
      exact ih hras (List.nodup_cons.mp hnd).2

theorem inboxLookup_settleAck (hk : String) (ids : List String) (now : Nat)
    (ib : Inbox) (k : String × String) :
    inboxLookup (settleAck hk ids now ib) k =
      (inboxLookup ib k).map
        (fun ent => if k.2 = hk ∧ k.1 ∈ ids then ackEntry ent now else ent) := by
  induction ib with
  | nil => rfl
  | cons e es ih =>
    unfold settleAck at ih ⊢
    rw [List.map_cons]
    by_cases hp : e.1.2 = hk ∧ e.1.1 ∈ ids
    · rw [if_pos hp]
      unfold inboxLookup
      by_cases hk1 : e.1 = k
      · rw [if_pos hk1, if_pos hk1, ← hk1]
        simp [hp]
      · rw [if_neg hk1, if_neg hk1]
        exact ih
    · rw [if_neg hp]
      unfold inboxLookup
      by_cases hk1 : e.1 = k
      · rw [if_pos hk1, if_pos hk1, ← hk1]
        simp [hp]
      · rw [if_neg hk1, if_neg hk1]
        exact ih

theorem inboxLookup_settleFail (hk : String) (ids : List String)
    (maxAttempts : Nat) (errMsg : String) (now : Nat) (ib : Inbox)
    (k : String × String) :
    inboxLookup (settleFail hk ids maxAttempts errMsg now ib) k =
      (inboxLookup ib k).map
        (fun ent => if k.2 = hk ∧ k.1 ∈ ids then
          failEntry ent maxAttempts errMsg now else ent) := by
  induction ib with
  | nil => rfl
  | cons e es ih =>
    unfold settleFail at ih ⊢
    rw [List.map_cons]
    by_cases hp : e.1.2 = hk ∧ e.1.1 ∈ ids
    · rw [if_pos hp]
      unfold inboxLookup
      by_cases hk1 : e.1 = k
      · rw [if_pos hk1, if_pos hk1, ← hk1]
        simp [hp]
      · rw [if_neg hk1, if_neg hk1]
        exact ih
    · rw [if_neg hp]
      unfold inboxLookup
      by_cases hk1 : e.1 = k
      · rw [if_pos hk1, if_pos hk1, ← hk1]
        simp [hp]
      · rw [if_neg hk1, if_neg hk1]
        exact ih

theorem toProcess_eq_claimed (hk : String) (rows : List InboxEvent)
    (ib : Inbox) (hnd : (rows.map InboxEvent.eventId).Nodup) :
    rows.filter (fun r =>
      (rows.filter fun x => (inboxLookup ib (x.eventId, hk)).isNone).any
        fun i => i.eventId == r.eventId) =
      rows.filter (fun x => (inboxLookup ib (x.eventId, hk)).isNone) := by
  apply List.filter_congr
  intro x hx
  cases hlk : (inboxLookup ib (x.eventId, hk)).isNone with
  | true =>
    have hxc : x ∈ rows.filter
        (fun x => (inboxLookup ib (x.eventId, hk)).isNone) :=
      List.mem_filter.mpr ⟨hx, hlk⟩
    exact List.any_eq_true.mpr ⟨x, hxc, by simp⟩
  | false =>
    cases hany : (rows.filter
        (fun x => (inboxLookup ib (x.eventId, hk)).isNone)).any
        (fun i => i.eventId == x.eventId) with
    | false => rfl
    | true =>
      exfalso
      obtain ⟨i, hic, hieq⟩ := List.any_eq_true.mp hany
      obtain ⟨hir, hinone⟩ := List.mem_filter.mp hic
      have hidq : i.eventId = x.eventId := by simpa using hieq
      have hix : i = x := List.inj_on_of_nodup_map hnd hir hx hidq
      rw [hix] at hinone
      rw [hinone] at hlk
      cases hlk

/-- Claim C1 (amended): a committed dispatcher batch transaction settles every
freshly claimed `(event_id, handler_kind)` pair as ACK with `attempts = 1`
and `last_error NULL` when the handler returns, or as FAIL/DLQ with
`attempts = 1` and the truncated error when the handler raises — and in both
cases the writes the handler issued through the transaction handle before
returning or raising are committed, because the error is caught inside the
transaction callback and the transaction then commits. -/
theorem dispatcher_batch_commit_cases
    (maxAttempts : Nat) (hk : String) (now : Nat) (rows : List InboxEvent)
    (handler : Handler) (st : DispatchState) (r : InboxEvent)
    (hr : r ∈ rows)
    (hnew : inboxLookup st.inbox (r.eventId, hk) = none)
    (hnd : (rows.map InboxEvent.eventId).Nodup) :
    (runBatchTx maxAttempts hk now rows handler st).effects =
      st.effects ++ (handler (rows.filter fun x =>
        (inboxLookup st.inbox (x.eventId, hk)).isNone)).1 ∧
    (∀ ws, handler (rows.filter fun x =>
        (inboxLookup st.inbox (x.eventId, hk)).isNone) = (ws, none) →
      inboxLookup (runBatchTx maxAttempts hk now rows handler st).inbox
        (r.eventId, hk) =
        some { status := .ACK, attempts := 1, lastError := none,
               blockNumber := r.blockNumber, partitionKey := r.partitionKey,
               firstSeenAt := now, lastAttemptAt := some now }) ∧
    (∀ ws err, handler (rows.filter fun x =>
        (inboxLookup st.inbox (x.eventId, hk)).isNone) = (ws, some err) →
      inboxLookup (runBatchTx maxAttempts hk now rows handler st).inbox
        (r.eventId, hk) =
        some { status := if 1 ≥ maxAttempts then .DLQ else .FAIL,
               attempts := 1, lastError := some (truncateTo err 500),
               blockNumber := r.blockNumber, partitionKey := r.partitionKey,
               firstSeenAt := now, lastAttemptAt := some now }) := by
  have hrc : r ∈ rows.filter
      (fun x => (inboxLookup st.inbox (x.eventId, hk)).isNone) :=
    List.mem_filter.mpr ⟨hr, by rw [hnew]; rfl⟩
  have hnonempty : (rows.filter
      (fun x => (inboxLookup st.inbox (x.eventId, hk)).isNone)).isEmpty =
      false := by
    cases hc : (rows.filter
        (fun x => (inboxLookup st.inbox (x.eventId, hk)).isNone)).isEmpty with
    | false => rfl
    | true =>
      exfalso
      rw [List.isEmpty_iff.mp hc] at hrc
      cases hrc
  have hndc : ((rows.filter
      (fun x => (inboxLookup st.inbox (x.eventId, hk)).isNone)).map
      InboxEvent.eventId).Nodup :=
    hnd.sublist (List.Sublist.map _ (List.filter_sublist rows))
  have hlk1 : inboxLookup
      (insertPendingRows hk now (rows.filter
        (fun x => (inboxLookup st.inbox (x.eventId, hk)).isNone)) st.inbox)
      (r.eventId, hk) = some (pendingEntry r now) := by
    rw [insertPendingRows_eq_append,
      inboxLookup_append_of_none _ _ _ hnew,
      inboxLookup_map_pending hk now _ r hrc hndc]
  have hmm : r.eventId ∈ (rows.filter
      (fun x => (inboxLookup st.inbox (x.eventId, hk)).isNone)).map
      InboxEvent.eventId :=
    List.mem_map_of_mem _ hrc
  simp only [runBatchTx]
  rw [hnonempty]
  simp only [Bool.false_eq_true, if_false]
  rw [toProcess_eq_claimed hk rows st.inbox hnd]
  refine ⟨?_, ?_, ?_⟩
  · rcases hh : handler (rows.filter
        (fun x => (inboxLookup st.inbox (x.eventId, hk)).isNone)) with ⟨ws, oerr⟩
    cases oerr <;> rfl
  · intro ws hws
    rw [hws]
    show inboxLookup (settleAck hk _ now _) _ = _
    rw [inboxLookup_settleAck, hlk1]
    simp [hmm, ackEntry, pendingEntry]
  · intro ws err hws
    rw [hws]
    show inboxLookup (settleFail hk _ maxAttempts _ now _) _ = _
    rw [inboxLookup_settleFail, hlk1]
    simp [hmm, failEntry, pendingEntry]

theorem dispatcher_batch_commit_cases_witness :
    (runBatchTx 5 "H" 10 [cexRow] writeThenRaiseHandler ⟨[], []⟩).effects =
      [] ++ (writeThenRaiseHandler ([cexRow].filter fun x =>
        (inboxLookup [] (x.eventId, "H")).isNone)).1 ∧
    (∀ ws, writeThenRaiseHandler ([cexRow].filter fun x =>
        (inboxLookup [] (x.eventId, "H")).isNone) = (ws, none) →
      inboxLookup (runBatchTx 5 "H" 10 [cexRow] writeThenRaiseHandler
        ⟨[], []⟩).inbox (cexRow.eventId, "H") =
        some { status := .ACK, attempts := 1, lastError := none,
               blockNumber := cexRow.blockNumber,
               partitionKey := cexRow.partitionKey,
               firstSeenAt := 10, lastAttemptAt := some 10 }) ∧
    (∀ ws err, writeThenRaiseHandler ([cexRow].filter fun x =>
        (inboxLookup [] (x.eventId, "H")).isNone) = (ws, some err) →
      inboxLookup (runBatchTx 5 "H" 10 [cexRow] writeThenRaiseHandler
        ⟨[], []⟩).inbox (cexRow.eventId, "H") =
        some { status := if 1 ≥ 5 then .DLQ else .FAIL,
               attempts := 1, lastError := some (truncateTo err 500),
               blockNumber := cexRow.blockNumber,
               partitionKey := cexRow.partitionKey,
               firstSeenAt := 10, lastAttemptAt := some 10 }) :=
  dispatcher_batch_commit_cases 5 "H" 10 [cexRow] writeThenRaiseHandler
    ⟨[], []⟩ cexRow (by decide) rfl (by decide)

set_option maxRecDepth 4000 in
/-- Claim C1 counterexample: a handler that issues the write `"w1"` through
the transaction handle and then raises leaves a committed state in which the
write *is* applied and the inbox row is FAIL — none of the claim's three
admissible outcomes (no row and no effects; FAIL/DLQ and no effects; ACK and
effects) describes it. -/
theorem dispatcher_raise_commits_writes_cex :
    cexAfter.effects = ["w1"] ∧
    inboxLookup cexAfter.inbox ("e1", "H") =
      some { status := .FAIL, attempts := 1, lastError := some "boom",
             blockNumber := 1, partitionKey := "p", firstSeenAt := 10,
             lastAttemptAt := some 10 } ∧
    ¬ ((inboxLookup cexAfter.inbox ("e1", "H") = none ∧
        "w1" ∉ cexAfter.effects) ∨
       ((Option.map InboxEntry.status (inboxLookup cexAfter.inbox ("e1", "H")) =
          some .FAIL ∨
         Option.map InboxEntry.status (inboxLookup cexAfter.inbox ("e1", "H")) =
          some .DLQ) ∧ "w1" ∉ cexAfter.effects) ∨
       (Option.map InboxEntry.status (inboxLookup cexAfter.inbox ("e1", "H")) =
          some .ACK ∧
        Option.map InboxEntry.lastError
          (inboxLookup cexAfter.inbox ("e1", "H")) = some none)) := by
  decide

/-- Claim C2: after the operator resets the FAIL inbox row back to PENDING
with `dlqFailures`, the dispatcher's selection still excludes the event —
its `NOT EXISTS` predicate matches inbox rows of any status — so no later
iteration selects the event or invokes the handler on it again, while the
same selection over an inbox without the row would return the event. -/
theorem fail_reset_event_never_reselected :
    inboxLookup (dlqFailuresReset "H" 100 resetInboxFail) ("e1", "H") =
      some { status := .PENDING, attempts := 1, lastError := none,
             blockNumber := 7, partitionKey := "pk", firstSeenAt := 1,
             lastAttemptAt := some 2 } ∧
    selectBatch "" "H" 200 [resetJoinRow]
      (dlqFailuresReset "H" 100 resetInboxFail) = [] ∧
    selectBatch "" "H" 200 [resetJoinRow] [] = [toInboxEvent resetJoinRow] ∧
    (∀ (handler : Handler) (now : Nat),
      dispatchIteration { handlerKind := "H" } now [resetJoinRow] handler
        ⟨dlqFailuresReset "H" 100 resetInboxFail, []⟩ =
      ⟨dlqFailuresReset "H" 100 resetInboxFail, []⟩) := by
  refine ⟨by decide, by decide, by decide, ?_⟩
  intro handler now
  have hsel : selectBatch "" "H" 200 [resetJoinRow]
      (dlqFailuresReset "H" 100 resetInboxFail) = [] := by decide
  unfold dispatchIteration
  rw [show ({ handlerKind := "H" } : DispatchConfig).partitionSelector = ""
    from rfl]
  rw [show ({ handlerKind := "H" } : DispatchConfig).handlerKind = "H"
    from rfl]
  rw [show ({ handlerKind := "H" } : DispatchConfig).batchSize = 200
    from rfl]
  rw [hsel]
  rfl

theorem probe_failure_keeps_window_witness :
    ((⟨5, 5, 0, 0, 5000⟩ : CircuitBreaker).execute 5000 .failure).2 =
      .ran .failure ∧
    ((⟨5, 5, 0, 0, 5000⟩ : CircuitBreaker).execute 5000 .failure).1.openUntil =
      5000 ∧
    ((⟨5, 5, 0, 0, 5000⟩ : CircuitBreaker).execute 5000
      .failure).1.failureCount = 1 ∧
    (((⟨5, 5, 0, 0, 5000⟩ : CircuitBreaker).execute 5000
      .failure).1.execute 5001 .failure).2 = .ran .failure :=
  probe_failure_keeps_window ⟨5, 5, 0, 0, 5000⟩ 5000 5001 .failure (by decide)
    (by decide) (by decide)

end GoodIndexer
